import Mathlib

/-!
Shallow embedding of the pytorch_geometric repository fragments under
verification, together with theorems settling the specification claims.

Contents:
* the epoch loop of `examples/tagcn.py` (best-validation tracking);
* `pad_to_block_size` / `create_masks_for_block_sparse_attn` and the
  `BigBirdAttention.forward` call structure of
  `torch_geometric/nn/attention/bigbird.py`;
* `_build_clusters` and `process` of
  `torch_geometric/datasets/protein_mpnn_dataset.py`.

Real numbers of the source (accuracies, coordinates, similarity scores) are
modelled as rationals; tensors are modelled as shape data plus an index
function, with each tensor operation of the source (`view`, slicing, `cat`,
`einsum` without summed index, `F.pad`) given its index-level semantics.
-/

namespace Tagcn

/-- One iteration of the epoch loop of `examples/tagcn.py` (lines 73-75):
the running state is the pair `(best_val_acc, test_acc)`; on an epoch whose
`val_acc` strictly exceeds `best_val_acc`, both components are replaced by
the epoch's `(val_acc, tmp_test_acc)`. -/
def epochStep (s : ℚ × ℚ) (p : ℚ × ℚ) : ℚ × ℚ :=
  if s.1 < p.1 then (p.1, p.2) else s

/-- The epoch loop of `examples/tagcn.py` (lines 68-78) run over a list of
per-epoch `(val_acc, tmp_test_acc)` pairs, starting from
`best_val_acc = test_acc = 0` (line 68). Returns the final
`(best_val_acc, test_acc)` pair reported at lines 82-83. -/
def runEpochLoop (l : List (ℚ × ℚ)) : ℚ × ℚ :=
  l.foldl epochStep (0, 0)

/-- Characterization of the fold from an arbitrary starting state: either no
epoch beat the initial best (and the state is unchanged), or the final state
is the `(val, tmp_test)` pair of some epoch that beats the initial best and
is maximal among all epochs. -/
theorem foldl_epochStep_spec (l : List (ℚ × ℚ)) (s : ℚ × ℚ) :
    (l.foldl epochStep s = s ∧ ∀ p ∈ l, p.1 ≤ s.1) ∨
    (∃ p ∈ l, l.foldl epochStep s = p ∧ s.1 < p.1 ∧ ∀ q ∈ l, q.1 ≤ p.1) := by
  induction l generalizing s with
  | nil => exact Or.inl ⟨rfl, by simp⟩
  | cons a t ih =>
    simp only [List.foldl_cons]
    rcases ih (epochStep s a) with ⟨heq, hle⟩ | ⟨p, hp, heq, hlt, hmax⟩
    · by_cases h : s.1 < a.1
      · refine Or.inr ⟨a, by simp, ?_, h, ?_⟩
        · rw [heq]; simp [epochStep, h]
        · intro q hq
          rcases List.mem_cons.mp hq with rfl | hq
          · exact le_refl _
          · have := hle q hq
            simpa [epochStep, h] using this
      · refine Or.inl ⟨?_, ?_⟩
        · rw [heq]; simp [epochStep, h]
        · intro q hq
          rcases List.mem_cons.mp hq with rfl | hq
          · exact le_of_not_lt h
          · have := hle q hq
            simpa [epochStep, h] using this
    · by_cases h : s.1 < a.1
      · refine Or.inr ⟨p, List.mem_cons_of_mem _ hp, heq, ?_, ?_⟩
        · calc s.1 < a.1 := h
               _ ≤ p.1 := by simpa [epochStep, h] using hlt.le
        · intro q hq
          rcases List.mem_cons.mp hq with rfl | hq
          · simpa [epochStep, h] using hlt.le
          · exact hmax q hq
      · refine Or.inr ⟨p, List.mem_cons_of_mem _ hp, heq, ?_, ?_⟩
        · simpa [epochStep, h] using hlt
        · intro q hq
          rcases List.mem_cons.mp hq with rfl | hq
          · calc q.1 ≤ s.1 := le_of_not_lt h
                 _ ≤ p.1 := by simpa [epochStep, h] using hlt.le
          · exact hmax q hq

/-- C1 counterexample: the claim fails as stated. On the epoch sequence
`[(val_acc, tmp_test_acc)] = [(0, 1)]` the loop's final pair is `(0, 0)`:
the initial `best_val_acc = 0` is never beaten because the update at line 73
requires `val_acc > best_val_acc` strictly, so `test_acc` keeps its initial
value `0`, which is not the `tmp_test_acc` of any epoch attaining the
maximum validation accuracy (the only such epoch has `tmp_test_acc = 1`). -/
theorem tagcn_selection_counterexample :
    ¬ ∃ p ∈ [((0 : ℚ), (1 : ℚ))],
        runEpochLoop [((0 : ℚ), (1 : ℚ))] = (p.1, p.2) ∧
        ∀ q ∈ [((0 : ℚ), (1 : ℚ))], q.1 ≤ p.1 := by
  decide

/-- C1 amended: provided at least one epoch has strictly positive validation
accuracy (true of any real training run; accuracies are ratios in `[0,1]`
and the initial `best_val_acc` is `0`), the epoch loop of
`examples/tagcn.py` ends with `(best_val_acc, test_acc)` equal to the
`(val_acc, tmp_test_acc)` pair of an epoch whose validation accuracy is
maximal over all epochs: the reported best validation accuracy is the
maximum validation accuracy, and the reported test accuracy is the test
accuracy measured at an epoch attaining that maximum. -/
theorem tagcn_selection_tracks_best_val (l : List (ℚ × ℚ))
    (h : ∃ p ∈ l, 0 < p.1) :
    ∃ p ∈ l, runEpochLoop l = (p.1, p.2) ∧ ∀ q ∈ l, q.1 ≤ p.1 := by
  rcases foldl_epochStep_spec l (0, 0) with ⟨_, hle⟩ | ⟨p, hp, heq, _, hmax⟩
  · rcases h with ⟨p, hp, hpos⟩
    exact absurd (hle p hp) (not_le.mpr hpos)
  · exact ⟨p, hp, by rw [runEpochLoop, heq], hmax⟩

/-- Witness for `tagcn_selection_tracks_best_val` at the concrete epoch list
`[(1, 2)]`. -/
theorem tagcn_selection_tracks_best_val_witness :
    ∃ p ∈ [((1 : ℚ), (2 : ℚ))],
      runEpochLoop [((1 : ℚ), (2 : ℚ))] = (p.1, p.2) ∧
      ∀ q ∈ [((1 : ℚ), (2 : ℚ))], q.1 ≤ p.1 :=
  tagcn_selection_tracks_best_val _ ⟨(1, 2), by simp, by norm_num⟩

end Tagcn

namespace BigBird

/-- Dense float tensor of shape `(batch, seq, dim)`: shape data plus an
index function (entries are rationals standing for the source's floats). -/
structure Tensor3 where
  batch : ℕ
  seq : ℕ
  dim : ℕ
  data : ℕ → ℕ → ℕ → ℚ

/-- Boolean mask tensor of shape `(batch, seq)`. -/
structure Mask2 where
  batch : ℕ
  seq : ℕ
  data : ℕ → ℕ → Bool

/-- Boolean mask tensor of shape `(batch, blocks, block)`: the block-reshaped
view of a flat mask. -/
structure Mask3 where
  batch : ℕ
  blocks : ℕ
  block : ℕ
  data : ℕ → ℕ → ℕ → Bool

/-- Boolean mask tensor of shape `(d1, d2, d3, d4)` (used for the
`from_mask` view `(batch, 1, seq, 1)` and the `to_mask` view
`(batch, 1, 1, seq)`). -/
structure Mask4 where
  d1 : ℕ
  d2 : ℕ
  d3 : ℕ
  d4 : ℕ
  data : ℕ → ℕ → ℕ → ℕ → Bool

/-- The band mask of shape `(batch, 1, blocks, q, k)` produced by
`create_band_mask_from_inputs` after `unsqueeze_(1)`; the second index is
the singleton dimension inserted by the unsqueeze. -/
structure BandMask where
  batch : ℕ
  heads : ℕ
  blocks : ℕ
  qdim : ℕ
  kdim : ℕ
  data : ℕ → ℕ → ℕ → ℕ → ℕ → Bool

/-- `pad_to_block_size` (bigbird.py lines 26-38): computes
`padding_len = (block_size - seq_length % block_size) % block_size` and, when
positive, appends `padding_len` zero rows to `x` along the sequence
dimension (`torch.cat` with a zero tensor) and `padding_len` `False` entries
to `mask` (`F.pad` with `value=False`). Returns `(padding_len, x, mask)`. -/
def pad_to_block_size (x : Tensor3) (mask : Mask2) (block_size : ℕ) :
    ℕ × Tensor3 × Mask2 :=
  let padding_len := (block_size - x.seq % block_size) % block_size
  let x' : Tensor3 :=
    if 0 < padding_len then
      { batch := x.batch, seq := x.seq + padding_len, dim := x.dim,
        data := fun b j e => if j < x.seq then x.data b j e else 0 }
    else x
  let mask' : Mask2 :=
    if 0 < padding_len then
      { batch := mask.batch, seq := mask.seq + padding_len,
        data := fun b j => if j < mask.seq then mask.data b j else false }
    else mask
  (padding_len, x', mask')

/-- `create_band_mask_from_inputs` (bigbird.py lines 48-69):
`exp_blocked_to_pad` is the concatenation along dim 2 of the block slices
`[:, 1:-3]`, `[:, 2:-2]`, `[:, 3:-1]` of `to_blocked_mask` (each slice has
`blocks - 4` rows, so row `l` reads blocks `l+1`, `l+2`, `l+3`); the band
mask is the einsum `"blq,blk->blqk"` of `from_blocked_mask[:, 2:-2]` with it
(no summed index, hence the pointwise product, `&&` on booleans), followed
by `unsqueeze_(1)`. -/
def create_band_mask_from_inputs (from_blocked_mask to_blocked_mask : Mask3) :
    BandMask :=
  let exp_blocked_to_pad : Mask3 :=
    { batch := to_blocked_mask.batch, blocks := to_blocked_mask.blocks - 4,
      block := 3 * to_blocked_mask.block,
      data := fun b l k =>
        if k < to_blocked_mask.block then to_blocked_mask.data b (l + 1) k
        else if k < 2 * to_blocked_mask.block then
          to_blocked_mask.data b (l + 2) (k - to_blocked_mask.block)
        else to_blocked_mask.data b (l + 3) (k - 2 * to_blocked_mask.block) }
  { batch := from_blocked_mask.batch, heads := 1,
    blocks := from_blocked_mask.blocks - 4, qdim := from_blocked_mask.block,
    kdim := 3 * to_blocked_mask.block,
    data := fun b _ l q k =>
      from_blocked_mask.data b (l + 2) q && exp_blocked_to_pad.data b l k }

/-- The four masks returned by `create_masks_for_block_sparse_attn`. -/
structure MaskSet where
  blocked_encoder_mask : Mask3
  band_mask : BandMask
  from_mask : Mask4
  to_mask : Mask4

/-- `create_masks_for_block_sparse_attn` (bigbird.py lines 41-79): asserts
that the sequence length is a multiple of the block size (modelled by
returning `none` when the assertion fails), reshapes the flat mask into
blocks with `mask.view(batch, seq // block_size, block_size)` (row-major:
block `l`, offset `q` reads flat position `l * block_size + q`), builds the
band mask, and views the flat mask as `(batch, 1, seq, 1)` and
`(batch, 1, 1, seq)`. -/
def create_masks_for_block_sparse_attn (mask : Mask2) (block_size : ℕ) :
    Option MaskSet :=
  if mask.seq % block_size = 0 then
    let blocked_encoder_mask : Mask3 :=
      { batch := mask.batch, blocks := mask.seq / block_size,
        block := block_size,
        data := fun b l q => mask.data b (l * block_size + q) }
    some
      { blocked_encoder_mask := blocked_encoder_mask,
        band_mask := create_band_mask_from_inputs blocked_encoder_mask
          blocked_encoder_mask,
        from_mask := ⟨mask.batch, 1, mask.seq, 1,
          fun b _ j _ => mask.data b j⟩,
        to_mask := ⟨mask.batch, 1, 1, mask.seq,
          fun b _ _ j => mask.data b j⟩ }
  else none

theorem padding_len_mod (s bs : ℕ) (hbs : 0 < bs) :
    (s + (bs - s % bs) % bs) % bs = 0 := by
  rcases Nat.eq_zero_or_pos (s % bs) with h | h
  · simp [h, Nat.mod_self]
  · have hlt : s % bs < bs := Nat.mod_lt _ hbs
    have h1 : (bs - s % bs) % bs = bs - s % bs := Nat.mod_eq_of_lt (by omega)
    rw [h1]
    have h2 : s + (bs - s % bs) = bs * (s / bs) + bs := by
      have := Nat.div_add_mod s bs
      omega
    rw [h2, Nat.add_mod, Nat.mul_mod_right, Nat.mod_self]
    simp

/-- C2: for every input `x` of shape `(batch, seq, dim)`, boolean mask of
shape `(batch, seq)` (same sequence length), and positive `block_size`, the
mask returned by `pad_to_block_size` has sequence length a multiple of
`block_size`; every position appended by the padding is `False` in the
returned mask; and `x` is padded with zeros to the same length (original
entries kept, appended entries zero). -/
theorem pad_to_block_size_spec (x : Tensor3) (mask : Mask2) (block_size : ℕ)
    (hbs : 0 < block_size) (hshape : mask.seq = x.seq) :
    (pad_to_block_size x mask block_size).2.2.seq % block_size = 0 ∧
    (pad_to_block_size x mask block_size).2.2.seq =
      mask.seq + (pad_to_block_size x mask block_size).1 ∧
    (∀ b j, mask.seq ≤ j → j < (pad_to_block_size x mask block_size).2.2.seq →
      (pad_to_block_size x mask block_size).2.2.data b j = false) ∧
    (∀ b j, j < mask.seq →
      (pad_to_block_size x mask block_size).2.2.data b j = mask.data b j) ∧
    (pad_to_block_size x mask block_size).2.1.seq =
      (pad_to_block_size x mask block_size).2.2.seq ∧
    (∀ b j e, j < x.seq →
      (pad_to_block_size x mask block_size).2.1.data b j e = x.data b j e) ∧
    (∀ b j e, x.seq ≤ j → j < (pad_to_block_size x mask block_size).2.1.seq →
      (pad_to_block_size x mask block_size).2.1.data b j e = 0) := by
  by_cases h : 0 < (block_size - x.seq % block_size) % block_size
  · refine ⟨?_, ?_, ?_, ?_, ?_, ?_, ?_⟩ <;>
      simp [pad_to_block_size, h, hshape, padding_len_mod x.seq block_size hbs]
    · intro b j h1 h2
      simp [Nat.not_lt.mpr h1]
    · intro b j h1
      simp [h1]
    · intro b j e h1
      simp [h1]
    · intro b j e h1 h2
      simp [Nat.not_lt.mpr h1]
  · have h0 : (block_size - x.seq % block_size) % block_size = 0 := by omega
    have hx : x.seq % block_size = 0 := by
      have := padding_len_mod x.seq block_size hbs
      rw [h0] at this
      simpa using this
    have hpad : pad_to_block_size x mask block_size = (0, x, mask) := by
      simp [pad_to_block_size, h0]
    rw [hpad]
    exact ⟨by rw [hshape]; exact hx, by simp,
      fun b j h1 h2 => absurd h2 (Nat.not_lt.mpr h1),
      fun b j _ => rfl, hshape.symm, fun b j e _ => rfl,
      fun b j e h1 h2 => absurd h2 (Nat.not_lt.mpr h1)⟩

/-- Witness for `pad_to_block_size_spec` at a concrete input of shape
`(1, 3, 1)` with `block_size = 2`, checking one padded mask entry and one
padded `x` entry. -/
theorem pad_to_block_size_spec_witness :
    (pad_to_block_size ⟨1, 3, 1, fun _ _ _ => 7⟩ ⟨1, 3, fun _ _ => true⟩
        2).2.2.seq % 2 = 0 ∧
    (pad_to_block_size ⟨1, 3, 1, fun _ _ _ => 7⟩ ⟨1, 3, fun _ _ => true⟩
        2).2.2.data 0 3 = false ∧
    (pad_to_block_size ⟨1, 3, 1, fun _ _ _ => 7⟩ ⟨1, 3, fun _ _ => true⟩
        2).2.1.data 0 3 0 = 0 := by
  have h := pad_to_block_size_spec ⟨1, 3, 1, fun _ _ _ => 7⟩
    ⟨1, 3, fun _ _ => true⟩ 2 (by decide) rfl
  refine ⟨h.1, ?_, ?_⟩
  · exact h.2.2.1 0 3 (by decide) (by decide)
  · exact h.2.2.2.2.2.2 0 3 0 (by decide) (by decide)

/-- C10: when the sequence length of `x` is already a multiple of
`block_size`, `pad_to_block_size` returns `padding_len = 0` with `x` and
`mask` unchanged; and for every input whose mask has the same sequence
length as `x`, the mask returned by `pad_to_block_size` satisfies the
divisibility assertion of `create_masks_for_block_sparse_attn`, so the
composition never fails. -/
theorem pad_to_block_size_composes (x : Tensor3) (mask : Mask2)
    (block_size : ℕ) (hbs : 0 < block_size) :
    (x.seq % block_size = 0 →
      pad_to_block_size x mask block_size = (0, x, mask)) ∧
    (mask.seq = x.seq →
      (create_masks_for_block_sparse_attn
        (pad_to_block_size x mask block_size).2.2 block_size).isSome = true) := by
  constructor
  · intro hdiv
    simp [pad_to_block_size, hdiv, Nat.mod_self]
  · intro hshape
    have h := (pad_to_block_size_spec x mask block_size hbs hshape).1
    simp [create_masks_for_block_sparse_attn, h]

/-- Witness for `pad_to_block_size_composes` at a concrete input of shape
`(1, 4, 1)` with `block_size = 2` (sequence length already divisible). -/
theorem pad_to_block_size_composes_witness :
    (pad_to_block_size ⟨1, 4, 1, fun _ _ _ => 7⟩ ⟨1, 4, fun _ _ => true⟩ 2 =
      (0, ⟨1, 4, 1, fun _ _ _ => 7⟩, ⟨1, 4, fun _ _ => true⟩)) ∧
    (create_masks_for_block_sparse_attn
      (pad_to_block_size ⟨1, 4, 1, fun _ _ _ => 7⟩ ⟨1, 4, fun _ _ => true⟩
        2).2.2 2).isSome = true := by
  have h := pad_to_block_size_composes ⟨1, 4, 1, fun _ _ _ => 7⟩
    ⟨1, 4, fun _ _ => true⟩ 2 (by decide)
  exact ⟨h.1 (by decide), h.2 rfl⟩

/-- C3: for a mask whose sequence length is a multiple of `block_size`, the
band mask built by `create_masks_for_block_sparse_attn` lets interior block
`i` (with `2 ≤ i ≤ n_blocks - 3`) attend exactly to blocks `i-1, i, i+1`:
entry `(b, 0, i-2, q, k)` is the conjunction of the from-mask value at
position `q` of block `i` (flat position `i * block_size + q`) and the
to-mask value at the `k`-th position of the concatenation of blocks
`i-1, i, i+1`. -/
theorem band_mask_spec (mask : Mask2) (block_size : ℕ) (ms : MaskSet)
    (hbs : 0 < block_size)
    (hcm : create_masks_for_block_sparse_attn mask block_size = some ms)
    (b i q k : ℕ) (hi2 : 2 ≤ i) (hi3 : i ≤ mask.seq / block_size - 3)
    (hq : q < block_size) (hk : k < 3 * block_size) :
    ms.band_mask.data b 0 (i - 2) q k =
      (mask.data b (i * block_size + q) &&
        (if k < block_size then mask.data b ((i - 1) * block_size + k)
         else if k < 2 * block_size then
           mask.data b (i * block_size + (k - block_size))
         else mask.data b ((i + 1) * block_size + (k - 2 * block_size)))) := by
  by_cases hdiv : mask.seq % block_size = 0
  · rw [create_masks_for_block_sparse_attn, if_pos hdiv] at hcm
    obtain rfl : _ = ms := Option.some.inj hcm
    simp only [create_band_mask_from_inputs]
    have h1 : i - 2 + 2 = i := by omega
    have h2 : i - 2 + 1 = i - 1 := by omega
    have h3 : i - 2 + 3 = i + 1 := by omega
    rw [h1, h2, h3]
  · rw [create_masks_for_block_sparse_attn, if_neg hdiv] at hcm
    exact absurd hcm (by simp)

/-- An all-true mask of shape `(1, 10)`, used as a concrete witness input. -/
def maskW : Mask2 := ⟨1, 10, fun _ _ => true⟩

/-- The mask set produced by `create_masks_for_block_sparse_attn` on `maskW`
with `block_size = 2` (the fallback branch is never taken). -/
def maskSetW : MaskSet :=
  match create_masks_for_block_sparse_attn maskW 2 with
  | some ms => ms
  | none =>
      ⟨⟨0, 0, 0, fun _ _ _ => false⟩,
       ⟨0, 0, 0, 0, 0, fun _ _ _ _ _ => false⟩,
       ⟨0, 0, 0, 0, fun _ _ _ _ => false⟩,
       ⟨0, 0, 0, 0, fun _ _ _ _ => false⟩⟩

/-- Witness for `band_mask_spec`: on the all-true mask of length 10 with
`block_size = 2`, the band-mask entry for interior block `i = 2` at
`(q, k) = (0, 0)` is `true`. -/
theorem band_mask_spec_witness : maskSetW.band_mask.data 0 0 0 0 0 = true := by
  have h := band_mask_spec maskW 2 maskSetW (by decide) rfl 0 2 0 0
    (by decide) (by decide) (by decide) (by decide)
  simpa [maskW] using h

/-- The attribute names assigned on `self` by `BigBirdAttention.__init__`
(bigbird.py lines 109-120): `max_seqlen`, `num_attention_heads`,
`num_random_blocks`, `block_size`, `attention_head_size`, `all_head_size`,
`q`, `k`, `v`, `output`. -/
def bigBirdAttentionInitAttrs : List String :=
  ["max_seqlen", "num_attention_heads", "num_random_blocks", "block_size",
   "attention_head_size", "all_head_size", "q", "k", "v", "output"]

/-- The method names defined by class `BigBirdAttention` (bigbird.py lines
98, 122, 128, 131). -/
def bigBirdAttentionMethods : List String :=
  ["__init__", "transpose_for_scores", "bigbird_block_sparse_attention",
   "forward"]

/-- Python attribute lookup on a `BigBirdAttention` instance: succeeds for
the names assigned in `__init__` and the class's methods, raises
`AttributeError` otherwise. -/
def bigBirdGetattr (name : String) : Except String Unit :=
  if name ∈ bigBirdAttentionInitAttrs ∨ name ∈ bigBirdAttentionMethods then
    Except.ok ()
  else Except.error ("AttributeError: " ++ name)

/-- Number of parameters besides `self` of
`BigBirdAttention.bigbird_block_sparse_attention` (bigbird.py lines
128-129: `def bigbird_block_sparse_attention(self): pass`). -/
def bigbirdBlockSparseAttentionParamCount : ℕ := 0

/-- Number of arguments passed to `bigbird_block_sparse_attention` by
`forward` (bigbird.py lines 154-175): 16 positional plus the 4 keyword
arguments `seed`, `plan_from_length`, `plan_num_rand_blocks`,
`output_attentions`. -/
def bigbirdBlockSparseAttentionArgCount : ℕ := 20

/-- `BigBirdAttention.forward` (bigbird.py lines 131-182) as the sequence of
operations its body performs on an input of shape `(batch, seqlen, dim)`:
assert `seqlen % block_size == 0` (line 143); look up `self.query`,
`self.key`, `self.value` (lines 147-152; `__init__` defines `self.q`,
`self.k`, `self.v` instead); call `self.bigbird_block_sparse_attention` with
20 arguments (lines 154-175) though it is declared with none; on success the
context layer would be viewed back to `(batch, seqlen, dim)` (lines
177-178). Errors are modelled as `Except.error` with the exception text. -/
def BigBirdAttention_forward (batch seqlen dim block_size : ℕ) :
    Except String (ℕ × ℕ × ℕ) :=
  if seqlen % block_size = 0 then
    match bigBirdGetattr "query" with
    | Except.error e => Except.error e
    | Except.ok _ =>
      match bigBirdGetattr "key" with
      | Except.error e => Except.error e
      | Except.ok _ =>
        match bigBirdGetattr "value" with
        | Except.error e => Except.error e
        | Except.ok _ =>
          if bigbirdBlockSparseAttentionParamCount =
              bigbirdBlockSparseAttentionArgCount then
            Except.ok (batch, seqlen, dim)
          else
            Except.error "TypeError: bigbird_block_sparse_attention() takes 1 positional argument but 17 were given"
  else Except.error "AssertionError: seqlen % self.block_size == 0"

/-- C4 (code bug): for every input shape, `BigBirdAttention.forward` fails
rather than returning a context tensor: when the assertion passes, the
lookup of `self.query` raises `AttributeError` because `__init__` defines
`self.q`, not `self.query` (and the subsequent call of the zero-parameter
stub `bigbird_block_sparse_attention` with 20 arguments would raise
`TypeError`); the module's own docstring (bigbird.py lines 13-16) promises
`h_attn = self_attn(h_dense, mask)` instead. -/
theorem bigBirdAttention_forward_always_fails
    (batch seqlen dim block_size : ℕ) :
    ∃ e, BigBirdAttention_forward batch seqlen dim block_size =
      Except.error e := by
  by_cases h : seqlen % block_size = 0
  · refine ⟨"AttributeError: query", ?_⟩
    rw [BigBirdAttention_forward, if_pos h]
    have hq : bigBirdGetattr "query" =
        Except.error "AttributeError: query" := by rfl
    rw [hq]
  · exact ⟨_, by rw [BigBirdAttention_forward, if_neg h]⟩

end BigBird

namespace ProteinMPNN

/-- A 3-D coordinate (the source's floats modelled as rationals). -/
abbrev Vec3 := ℚ × ℚ × ℚ

/-- A 3×3 matrix given by its rows. -/
abbrev Mat3 := Vec3 × Vec3 × Vec3

/-- One row of the metadata table `pdb_2021aug02/list.csv` as read by
`_build_clusters` (protein_mpnn_dataset.py lines 96-111): the columns
`CHAINID`, `DEPOSITION`, `RESOLUTION`, `HASH`, `CLUSTER`. Deposition dates
(compared with `<=` against the date cutoff in the source) are modelled as
naturals carrying the same linear order. -/
structure Row where
  chainid : String
  deposition : ℕ
  resolution : ℚ
  hash : ℕ
  cluster : ℕ

/-- The dataset split selected at construction (`split` argument,
protein_mpnn_dataset.py line 70 restricts it to these three values). -/
inductive Split where
  | train
  | valid
  | test

/-- The row selection of `ProteinMPNNDataset._build_clusters`
(protein_mpnn_dataset.py lines 97-108): keep the rows with
`RESOLUTION <= rescut` and `DEPOSITION <= datcut` (line 98), then restrict
to the rows whose `CLUSTER` is in the valid-ID list (split `valid`, line
103), in the test-ID list (split `test`, line 105), or in neither (split
`train`, lines 107-108). -/
def selectedRows (rows : List Row) (valIds testIds : List ℕ) (split : Split)
    (rescut : ℚ) (datcut : ℕ) : List Row :=
  let df := rows.filter
    (fun r => decide (r.resolution ≤ rescut) && decide (r.deposition ≤ datcut))
  match split with
  | Split.valid => df.filter (fun r => decide (r.cluster ∈ valIds))
  | Split.test => df.filter (fun r => decide (r.cluster ∈ testIds))
  | Split.train => df.filter
      (fun r => !decide (r.cluster ∈ valIds) && !decide (r.cluster ∈ testIds))

/-- `ProteinMPNNDataset._build_clusters` (protein_mpnn_dataset.py lines
96-111): select rows as in `selectedRows`, then group by `CLUSTER`
(lines 110-111), mapping each cluster ID present to the list of its
`(CHAINID, HASH)` pairs in row order. The returned dictionary is modelled
as a function to `Option`, `none` for absent keys. -/
def buildClusters (rows : List Row) (valIds testIds : List ℕ) (split : Split)
    (rescut : ℚ) (datcut : ℕ) : ℕ → Option (List (String × ℕ)) :=
  fun cl =>
    let grp := ((selectedRows rows valIds testIds split rescut datcut).filter
      (fun r => decide (r.cluster = cl))).map (fun r => (r.chainid, r.hash))
    if grp.isEmpty then none else some grp

/-- The split-membership condition of `_build_clusters` as the claim states
it: `valid` keeps clusters in the valid-ID list, `test` those in the
test-ID list, `train` those in neither. -/
def splitKeeps (split : Split) (valIds testIds : List ℕ) (cl : ℕ) : Prop :=
  match split with
  | Split.valid => cl ∈ valIds
  | Split.test => cl ∈ testIds
  | Split.train => cl ∉ valIds ∧ cl ∉ testIds

theorem mem_selectedRows (rows : List Row) (valIds testIds : List ℕ)
    (split : Split) (rescut : ℚ) (datcut : ℕ) (r : Row) :
    r ∈ selectedRows rows valIds testIds split rescut datcut ↔
      r ∈ rows ∧ r.resolution ≤ rescut ∧ r.deposition ≤ datcut ∧
        splitKeeps split valIds testIds r.cluster := by
  cases split <;>
    simp [selectedRows, List.mem_filter, splitKeeps, and_assoc] <;> tauto

theorem buildClusters_mem_iff (rows : List Row) (valIds testIds : List ℕ)
    (split : Split) (rescut : ℚ) (datcut : ℕ) (cl : ℕ) (p : String × ℕ) :
    (∃ l, buildClusters rows valIds testIds split rescut datcut cl = some l ∧
      p ∈ l) ↔
    ∃ r ∈ selectedRows rows valIds testIds split rescut datcut,
      r.cluster = cl ∧ p = (r.chainid, r.hash) := by
  have hgrp : ∀ q : String × ℕ,
      q ∈ ((selectedRows rows valIds testIds split rescut datcut).filter
        (fun r => decide (r.cluster = cl))).map (fun r => (r.chainid, r.hash)) ↔
      ∃ r ∈ selectedRows rows valIds testIds split rescut datcut,
        r.cluster = cl ∧ q = (r.chainid, r.hash) := by
    intro q
    simp only [List.mem_map, List.mem_filter, decide_eq_true_eq]
    constructor
    · rintro ⟨r, ⟨hr, hcl⟩, hq⟩
      exact ⟨r, hr, hcl, hq.symm⟩
    · rintro ⟨r, hr, hcl, hq⟩
      exact ⟨r, ⟨hr, hcl⟩, hq.symm⟩
  simp only [buildClusters]
  constructor
  · rintro ⟨l, hl, hp⟩
    by_cases he : (((selectedRows rows valIds testIds split rescut
        datcut).filter (fun r => decide (r.cluster = cl))).map
          (fun r => (r.chainid, r.hash))).isEmpty
    · rw [if_pos he] at hl
      exact absurd hl (by simp)
    · rw [if_neg he] at hl
      obtain rfl := Option.some.inj hl
      exact (hgrp p).mp hp
  · intro hr
    have hp := (hgrp p).mpr hr
    have hne : ¬ ((((selectedRows rows valIds testIds split rescut
        datcut).filter (fun r => decide (r.cluster = cl))).map
          (fun r => (r.chainid, r.hash))).isEmpty = true) := by
      intro he
      rw [List.isEmpty_iff] at he
      rw [he] at hp
      exact absurd hp (List.not_mem_nil p)
    exact ⟨_, by rw [if_neg hne], hp⟩

theorem build_clusters_mem_aux (rows : List Row) (valIds testIds : List ℕ)
    (split : Split) (rescut : ℚ) (datcut : ℕ) (cl : ℕ) (p : String × ℕ) :
    (∃ l, buildClusters rows valIds testIds split rescut datcut cl = some l ∧
      p ∈ l) ↔
    ∃ r ∈ rows, r.resolution ≤ rescut ∧ r.deposition ≤ datcut ∧
      splitKeeps split valIds testIds r.cluster ∧ r.cluster = cl ∧
      p = (r.chainid, r.hash) := by
  rw [buildClusters_mem_iff]
  constructor
  · rintro ⟨r, hr, h1, h2⟩
    obtain ⟨hrow, hres, hdat, hsp⟩ := (mem_selectedRows _ _ _ _ _ _ r).mp hr
    exact ⟨r, hrow, hres, hdat, hsp, h1, h2⟩
  · rintro ⟨r, hrow, hres, hdat, hsp, h1, h2⟩
    exact ⟨r, (mem_selectedRows _ _ _ _ _ _ r).mpr ⟨hrow, hres, hdat, hsp⟩,
      h1, h2⟩

/-- C5: `_build_clusters` selects the rows passing the resolution and date
cutoffs and partitions clusters by set membership — the returned dictionary
contains a pair `p` under key `cl` exactly when some metadata row passes
both cutoffs, satisfies the split's membership condition (`valid`: cluster
in the valid-ID list; `test`: in the test-ID list; `train`: in neither),
belongs to cluster `cl` and has `p = (CHAINID, HASH)`; and it has an entry
for key `cl` exactly when such a row exists. -/
theorem build_clusters_spec (rows : List Row) (valIds testIds : List ℕ)
    (split : Split) (rescut : ℚ) (datcut : ℕ) (cl : ℕ) :
    (∀ p : String × ℕ,
      (∃ l, buildClusters rows valIds testIds split rescut datcut cl = some l ∧
        p ∈ l) ↔
      ∃ r ∈ rows, r.resolution ≤ rescut ∧ r.deposition ≤ datcut ∧
        splitKeeps split valIds testIds r.cluster ∧ r.cluster = cl ∧
        p = (r.chainid, r.hash)) ∧
    ((buildClusters rows valIds testIds split rescut datcut cl).isSome ↔
      ∃ r ∈ rows, r.resolution ≤ rescut ∧ r.deposition ≤ datcut ∧
        splitKeeps split valIds testIds r.cluster ∧ r.cluster = cl) := by
  constructor
  · intro p
    exact build_clusters_mem_aux rows valIds testIds split rescut datcut cl p
  · have hsome : (buildClusters rows valIds testIds split rescut datcut
        cl).isSome ↔ ∃ p l,
        buildClusters rows valIds testIds split rescut datcut cl = some l ∧
          p ∈ l := by
      simp only [buildClusters]
      by_cases he : (((selectedRows rows valIds testIds split rescut
          datcut).filter (fun r => decide (r.cluster = cl))).map
            (fun r => (r.chainid, r.hash))).isEmpty
      · rw [if_pos he]
        simp
      · rw [if_neg he]
        rw [Bool.not_eq_true, List.isEmpty_eq_false] at he
        obtain ⟨q, hq⟩ := List.exists_mem_of_ne_nil _ he
        simp only [Option.isSome_some, true_iff]
        exact ⟨q, _, rfl, hq⟩
    rw [hsome]
    constructor
    · rintro ⟨p, l, hl, hp⟩
      obtain ⟨r, hrow, hres, hdat, hsp, h1, _⟩ :=
        ((build_clusters_mem_aux rows valIds testIds split rescut datcut cl
          p).mp ⟨l, hl, hp⟩)
      exact ⟨r, hrow, hres, hdat, hsp, h1⟩
    · rintro ⟨r, hrow, hres, hdat, hsp, h1⟩
      obtain ⟨l, hl, hp⟩ := (build_clusters_mem_aux rows valIds testIds split
        rescut datcut cl (r.chainid, r.hash)).mpr
        ⟨r, hrow, hres, hdat, hsp, h1, rfl⟩
      exact ⟨(r.chainid, r.hash), l, hl, hp⟩

/-- The per-chain tensor file `f'{prefix}_{chain}.pt'`: the amino-acid
sequence and the per-residue backbone coordinates (a list of atom
coordinates per residue; the source stores a `(L, 4, 3)` tensor). -/
structure ChainData where
  seq : String
  xyz : List (List Vec3)

/-- The per-structure metadata file `f'{prefix}.pt'` as used by `process`
(protein_mpnn_dataset.py lines 209-276): `asmb_ids`, `asmb_chains`
(comma-separated chain lists), `chains`, the per-assembly transform stacks
`asmb_xform%d` (each a stack of `(rotation, translation)` pairs, the
`[:, :3, :3]` and `[:, :3, 3]` parts of the stored 4×4 matrices; absent
keys are `none`), and `tm`, a per-chain list of rows of per-chain triples
whose middle component (`[..., 1]`) is the sequence-identity score. -/
structure Meta where
  asmb_ids : List String
  asmb_chains : List String
  chains : List String
  asmb_xform : ℕ → Option (List (Mat3 × Vec3))
  tm : List (List (ℚ × ℚ × ℚ))

/-- The on-disk raw data visible to `process`: the per-structure metadata
file at a path prefix (present exactly when `osp.isfile` holds and
`torch.load` succeeds) and the per-chain files keyed by path prefix and
chain ID. -/
structure FS where
  meta : String → Option Meta
  chain : String → String → Option ChainData

/-- How a run of `process` can stop early: `stub` is the source's
`return {'seq': np.zeros(5)}` on a caught `KeyError`
(protein_mpnn_dataset.py line 273), carrying the malformed dictionary's
`seq` value; `exn` is an uncaught Python exception. -/
inductive ProcExit where
  | stub (seq : List ℚ)
  | exn (msg : String)

/-- A record appended to `data_list` by `process`: the concatenated
sequence, coordinates, chain-segment index vector, masked segment counters,
and the chain ID label. -/
structure Record where
  seq : String
  xyz : List (List Vec3)
  idx : List ℕ
  masked : List ℕ
  label : String

/-- Python's `s.split(sep)` for a single-character separator. -/
def pySplitOn (s : String) (sep : Char) : List String :=
  (s.toList.splitOn sep).map (fun l => String.mk l)

/-- The path prefix `f'{raw_paths[3]}/{pdb_id[1:3]}/{pdb_id}'`
(protein_mpnn_dataset.py line 204). -/
def pdbPathOf (base pdb_id : String) : String :=
  base ++ "/" ++ String.mk ((pdb_id.toList.drop 1).take 2) ++ "/" ++ pdb_id

/-- The candidate assemblies containing the chain (protein_mpnn_dataset.py
lines 215-219): the set `{a for a, b in zip(asmb_ids, asmb_chains) if ch_id
in b.split(',')}`, modelled as a deduplicated list (the random choice from
the set is an oracle parameter of `processEntry`, absorbing the set's
iteration order). -/
def candidatesOf (meta : Meta) (ch_id : String) : List String :=
  (((meta.asmb_ids.zip meta.asmb_chains).filter
    (fun ab => decide (ch_id ∈ pySplitOn ab.2 ','))).map (fun ab => ab.1)).dedup

/-- `np.where(np.array(asmb_ids) == asmb_i)[0]` (protein_mpnn_dataset.py
line 239): the positions of the selected assembly ID in `asmb_ids`. -/
def asmbIdxs (meta : Meta) (picked : String) : List ℕ :=
  (List.range meta.asmb_ids.length).filter
    (fun j => decide (meta.asmb_ids.getD j "" = picked))

/-- The chains dictionary (protein_mpnn_dataset.py lines 242-246):
`{c: torch.load(f'{prefix}_{c}.pt') for i in idx for c in asmb_chains[i] if
c in meta['chains']}`. Note the comprehension iterates over the
*characters* `c` of the string `asmb_chains[i]`, not over its
comma-separated fields. A missing chain file makes `torch.load` raise.
Duplicate keys reload the same file, so the association-list lookup agrees
with the Python dictionary. -/
def buildChainsDict (fs : FS) (pdbPath : String) (meta : Meta)
    (idxs : List ℕ) : Except ProcExit (List (String × ChainData)) :=
  (((idxs.map (fun i => (meta.asmb_chains.getD i "").toList)).flatten).filter
    (fun ch => decide (ch.toString ∈ meta.chains))).mapM
    (fun ch =>
      match fs.chain pdbPath ch.toString with
      | some cd => Except.ok (ch.toString, cd)
      | none => Except.error (ProcExit.exn "FileNotFoundError"))

/-- `set(meta['chains']) & set(asmb_chains[k].split(','))`
(protein_mpnn_dataset.py lines 258-260), modelled as the deduplicated list
of the split fields that are also in `meta['chains']` (the theorems below
do not depend on the set's iteration order). -/
def chainsKOf (meta : Meta) (k : ℕ) : List String :=
  ((pySplitOn (meta.asmb_chains.getD k "") ',').filter
    (fun c => decide (c ∈ meta.chains))).dedup

def dot3 (u v : Vec3) : ℚ :=
  u.1 * v.1 + u.2.1 * v.2.1 + u.2.2 * v.2.2

def matVec (m : Mat3) (v : Vec3) : Vec3 :=
  (dot3 m.1 v, dot3 m.2.1 v, dot3 m.2.2 v)

def addVec (u v : Vec3) : Vec3 :=
  (u.1 + v.1, u.2.1 + v.2.1, u.2.2 + v.2.2)

/-- One summand of `torch.einsum('bij,raj->brai', u, xyz) +
r[:, None, None, :]` (protein_mpnn_dataset.py lines 266-267) at a fixed
transform index `b`: rotate and translate every atom of every residue. -/
def applyXform (u : Mat3) (t : Vec3) (xyz : List (List Vec3)) :
    List (List Vec3) :=
  xyz.map (fun res => res.map (fun v => addVec (matVec u v) t))

/-- An entry of the assembly dictionary `asmb`: key `(c, k, i)` (chain ID,
transform-stack index, transform index) and the transformed coordinates. -/
abbrev AsmbEntry := (String × ℕ × ℕ) × List (List Vec3)

/-- The body of the `try` block at protein_mpnn_dataset.py lines 264-273
for one chain `c`: look up `chains[c]` — on `KeyError` the source `return`s
the stub dictionary `{'seq': np.zeros(5)}` — and add one entry per
transform in the stack (`enumerate(xyz_ru)`). -/
def transformChain (chains : List (String × ChainData)) (k : ℕ)
    (xforms : List (Mat3 × Vec3)) (c : String) :
    Except ProcExit (List AsmbEntry) :=
  match chains.lookup c with
  | none => Except.error (ProcExit.stub (List.replicate 5 0))
  | some cd =>
      Except.ok (xforms.enum.map
        (fun p => ((c, k, p.1), applyXform p.2.1 p.2.2 cd.xyz)))

/-- `for c in chains_k:` (protein_mpnn_dataset.py line 263): transform each
selected chain in turn, accumulating the assembly entries; the first
caught `KeyError` aborts with the stub. -/
def transformLoop (chains : List (String × ChainData)) (k : ℕ)
    (xforms : List (Mat3 × Vec3)) :
    List String → Except ProcExit (List AsmbEntry)
  | [] => Except.ok []
  | c :: cs =>
    match transformChain chains k xforms c with
    | Except.error e => Except.error e
    | Except.ok es =>
      match transformLoop chains k xforms cs with
      | Except.error e => Except.error e
      | Except.ok rest => Except.ok (es ++ rest)

/-- `for k in idx:` (protein_mpnn_dataset.py lines 250-273): for each
selected transform stack, fetch `meta['asmb_xform%d' % k]` — this lookup is
*outside* the `try`, so a missing key raises — and run the transform loop
over `chains_k`. The entries accumulate in insertion order; all keys
`(c, k, i)` are distinct, so the dictionary is faithfully a list. -/
def generateAsmb (chains : List (String × ChainData)) (meta : Meta) :
    List ℕ → Except ProcExit (List AsmbEntry)
  | [] => Except.ok []
  | k :: ks =>
    match meta.asmb_xform k with
    | none => Except.error (ProcExit.exn "KeyError: asmb_xform")
    | some xforms =>
      match transformLoop chains k xforms (chainsKOf meta k) with
      | Except.error e => Except.error e
      | Except.ok es =>
        match generateAsmb chains meta ks with
        | Except.error e => Except.error e
        | Except.ok rest => Except.ok (es ++ rest)

/-- `meta['tm'][ch_ids == ch_id][0, :, 1]` (protein_mpnn_dataset.py line
276): the first `tm` row whose chain ID is `ch_id`, projected to the middle
component of each triple; `none` when no row matches (the `[0]` then
raises `IndexError`). -/
def seqidRow (meta : Meta) (ch_id : String) : Option (List ℚ) :=
  ((meta.chains.zip meta.tm).find? (fun p => p.1 == ch_id)).map
    (fun p => p.2.map (fun t => t.2.1))

/-- The `homo` set (protein_mpnn_dataset.py lines 277-281):
`{ch_j for seqid_j, ch_j in zip(seqid, ch_ids) if seqid_j > self.homo}`,
modelled as a list. -/
def homoSet (seqid : List ℚ) (ch_ids : List String) (cut : ℚ) :
    List String :=
  ((seqid.zip ch_ids).filter (fun p => decide (cut < p.1))).map
    (fun p => p.2)

/-- The stacking loop `for counter, (k, v) in enumerate(asmb.items()):`
(protein_mpnn_dataset.py lines 283-291) with explicit counter: concatenate
sequences and coordinates, extend the segment-index vector by the counter
repeated once per residue, and append the counter to `masked` when the
chain is in the `homo` set. The lookup `chains[k[0]]` is outside any
`try`, so a missing key would raise. -/
def stackAux (chains : List (String × ChainData)) (homo : List String) :
    List AsmbEntry → ℕ → String × List (List Vec3) × List ℕ × List ℕ →
    Except ProcExit (String × List (List Vec3) × List ℕ × List ℕ)
  | [], _, st => Except.ok st
  | (key, v) :: rest, counter, st =>
    match chains.lookup key.1 with
    | none => Except.error (ProcExit.exn "KeyError: chains")
    | some cd =>
        stackAux chains homo rest (counter + 1)
          (st.1 ++ cd.seq, st.2.1 ++ v,
           st.2.2.1 ++ List.replicate v.length counter,
           st.2.2.2 ++ (if key.1 ∈ homo then [counter] else []))

def stackAssembly (chains : List (String × ChainData)) (homo : List String)
    (entries : List AsmbEntry) :
    Except ProcExit (String × List (List Vec3) × List ℕ × List ℕ) :=
  stackAux chains homo entries 0 ("", [], [], [])

/-- The assembly branch of `process` (protein_mpnn_dataset.py lines
236-299) for one chain, after an assembly ID has been picked: load the
chains dictionary, generate the transformed assembly, compute the
sequence-identity row and the `homo` set, stack everything and build the
record labelled with the chain ID. -/
def assembleRecord (fs : FS) (pdbPath : String) (meta : Meta)
    (ch_id chain_id : String) (picked : String) (homoCut : ℚ) :
    Except ProcExit Record :=
  match buildChainsDict fs pdbPath meta (asmbIdxs meta picked) with
  | Except.error e => Except.error e
  | Except.ok chains =>
    match generateAsmb chains meta (asmbIdxs meta picked) with
    | Except.error e => Except.error e
    | Except.ok entries =>
      match seqidRow meta ch_id with
      | none => Except.error (ProcExit.exn "IndexError: tm")
      | some seqid =>
        match stackAssembly chains (homoSet seqid meta.chains homoCut)
            entries with
        | Except.error e => Except.error e
        | Except.ok st =>
            Except.ok ⟨st.1, st.2.1, st.2.2.1, st.2.2.2, chain_id⟩

/-- The body of the inner loop of `process` (protein_mpnn_dataset.py lines
202-299) for one `(chain_id, hash)` entry: split the chain ID on `'_'`
(the tuple unpacking raises unless there are exactly two parts); if the
per-structure metadata file is missing, skip the chain (`continue`, lines
206-208), producing no record; if no candidate assembly contains the
chain, emit the single-chain record (lines 223-233); otherwise run the
assembly branch with the oracle-picked candidate (`random.sample`, line
236). The `pdb.set_trace()` breakpoint at lines 301-302 does not alter the
data flow and is not modelled. -/
def processEntry (base : String) (fs : FS) (homoCut : ℚ)
    (pick : List String → String) (entry : String × ℕ) :
    Except ProcExit (List Record) :=
  match pySplitOn entry.1 '_' with
  | [pdb_id, ch_id] =>
    match fs.meta (pdbPathOf base pdb_id) with
    | none => Except.ok []
    | some meta =>
      if (candidatesOf meta ch_id).isEmpty then
        match fs.chain (pdbPathOf base pdb_id) ch_id with
        | none => Except.error (ProcExit.exn "FileNotFoundError")
        | some chain =>
            Except.ok [{ seq := chain.seq, xyz := chain.xyz,
                         idx := List.replicate chain.seq.length 0,
                         masked := [0], label := entry.1 }]
      else
        match assembleRecord fs (pdbPathOf base pdb_id) meta ch_id entry.1
            (pick (candidatesOf meta ch_id)) homoCut with
        | Except.error e => Except.error e
        | Except.ok r => Except.ok [r]
  | _ => Except.error (ProcExit.exn "ValueError: unpack")

/-- The chain loop of `process` over a list of `(chain_id, hash)` entries,
accumulating `data_list`: an early `return` (the stub) or an uncaught
exception abandons all remaining entries. -/
def processEntries (base : String) (fs : FS) (homoCut : ℚ)
    (pick : List String → String) :
    List (String × ℕ) → List Record → Except ProcExit (List Record)
  | [], acc => Except.ok acc
  | e :: rest, acc =>
    match processEntry base fs homoCut pick e with
    | Except.error ex => Except.error ex
    | Except.ok recs => processEntries base fs homoCut pick rest (acc ++ recs)

/-- `ProteinMPNNDataset.process` (protein_mpnn_dataset.py lines 197-302):
iterate over the clusters dictionary and, within each cluster, over its
`(chain_id, hash)` entries, building `data_list`. (The source never saves
the list — the `self.save` call is commented out — so the model returns
it.) -/
def process (base : String) (fs : FS) (homoCut : ℚ)
    (pick : List String → String)
    (clusters : List (ℕ × List (String × ℕ))) :
    Except ProcExit (List Record) :=
  processEntries base fs homoCut pick
    ((clusters.map (fun c => c.2)).flatten) []

/-- C6: for a chain whose set of candidate assemblies is empty (no entry of
`zip(asmb_ids, asmb_chains)` lists the chain's ID), `process` appends a
single-chain record holding the chain's sequence and coordinates unchanged
(no assembly transform applied), a segment-index vector of zeros of the
sequence's length, the masked set `[0]`, and the chain ID as label. -/
theorem single_chain_record (base : String) (fs : FS) (homoCut : ℚ)
    (pick : List String → String) (cid : String) (hsh : ℕ)
    (pdb_id ch_id : String) (meta : Meta) (chain : ChainData)
    (hsplit : pySplitOn cid '_' = [pdb_id, ch_id])
    (hmeta : fs.meta (pdbPathOf base pdb_id) = some meta)
    (hcand : ∀ ab ∈ meta.asmb_ids.zip meta.asmb_chains,
      ch_id ∉ pySplitOn ab.2 ',')
    (hchain : fs.chain (pdbPathOf base pdb_id) ch_id = some chain) :
    processEntry base fs homoCut pick (cid, hsh) =
      Except.ok [{ seq := chain.seq, xyz := chain.xyz,
                   idx := List.replicate chain.seq.length 0,
                   masked := [0], label := cid }] := by
  have hc : candidatesOf meta ch_id = [] := by
    have hf : (meta.asmb_ids.zip meta.asmb_chains).filter
        (fun ab => decide (ch_id ∈ pySplitOn ab.2 ',')) = [] :=
      List.filter_eq_nil_iff.mpr (by intro ab hab; simpa using hcand ab hab)
    simp [candidatesOf, hf]
  simp [processEntry, hsplit, hmeta, hc, hchain]

/-- A chain file used by concrete witnesses. -/
def chainW : ChainData := ⟨"GG", []⟩

/-- A metadata file with no assemblies, used by the C6 witness. -/
def metaW6 : Meta :=
  { asmb_ids := [], asmb_chains := [], chains := [],
    asmb_xform := fun _ => none, tm := [] }

/-- A raw-file layout where every structure has `metaW6` metadata and every
chain file is `chainW`. -/
def fsW6 : FS := ⟨fun _ => some metaW6, fun _ _ => some chainW⟩

/-- Witness for `single_chain_record` on the chain `1ab_A` under `fsW6`. -/
theorem single_chain_record_witness :
    processEntry "pdb" fsW6 0 (fun _ => "") ("1ab_A", 0) =
      Except.ok [{ seq := "GG", xyz := [],
                   idx := List.replicate ("GG".length) 0,
                   masked := [0], label := "1ab_A" }] := by
  have h := single_chain_record "pdb" fsW6 0 (fun _ => "") "1ab_A" 0
    "1ab" "A" metaW6 chainW rfl rfl (by simp [metaW6]) rfl
  simpa [chainW] using h

/-- C8: a chain whose per-structure metadata file does not exist is skipped:
its entry contributes no record and raises nothing, and the chain loop
continues with the next entry — processing a list with the entry present
equals processing the list with it removed. -/
theorem missing_meta_skipped (base : String) (fs : FS) (homoCut : ℚ)
    (pick : List String → String) (cid : String) (hsh : ℕ)
    (pdb_id ch_id : String)
    (hsplit : pySplitOn cid '_' = [pdb_id, ch_id])
    (hmeta : fs.meta (pdbPathOf base pdb_id) = none) :
    processEntry base fs homoCut pick (cid, hsh) = Except.ok [] ∧
    ∀ pre post acc,
      processEntries base fs homoCut pick (pre ++ (cid, hsh) :: post) acc =
        processEntries base fs homoCut pick (pre ++ post) acc := by
  have h1 : processEntry base fs homoCut pick (cid, hsh) = Except.ok [] := by
    simp [processEntry, hsplit, hmeta]
  refine ⟨h1, ?_⟩
  intro pre post acc
  induction pre generalizing acc with
  | nil => simp [processEntries, h1]
  | cons e pre ih =>
    simp only [List.cons_append, processEntries]
    cases hpe : processEntry base fs homoCut pick e with
    | error ex => rfl
    | ok recs => exact ih (acc ++ recs)

/-- A raw-file layout with no files at all, used by the C8 witness. -/
def fsW8 : FS := ⟨fun _ => none, fun _ _ => none⟩

/-- Witness for `missing_meta_skipped` on the chain `1ab_A` under `fsW8`. -/
theorem missing_meta_skipped_witness :
    processEntry "pdb" fsW8 0 (fun _ => "") ("1ab_A", 0) = Except.ok [] ∧
    processEntries "pdb" fsW8 0 (fun _ => "") [("1ab_A", 0)] [] =
      processEntries "pdb" fsW8 0 (fun _ => "") [] [] := by
  have h := missing_meta_skipped "pdb" fsW8 0 (fun _ => "") "1ab_A" 0
    "1ab" "A" rfl rfl
  exact ⟨h.1, by simpa using h.2 [] [] []⟩

/-- The stub value the source returns on a caught `KeyError`:
`{'seq': np.zeros(5)}`. -/
def stubValue : ProcExit := ProcExit.stub (List.replicate 5 0)

theorem transformLoop_stub (chains : List (String × ChainData)) (k : ℕ)
    (xforms : List (Mat3 × Vec3)) (cs : List String)
    (hfail : ∃ c ∈ cs, chains.lookup c = none) :
    transformLoop chains k xforms cs = Except.error stubValue := by
  induction cs with
  | nil => simp at hfail
  | cons c0 cs ih =>
    obtain ⟨c, hc, hnone⟩ := hfail
    rcases List.mem_cons.mp hc with rfl | hc
    · simp [transformLoop, transformChain, hnone, stubValue]
    · cases hl : chains.lookup c0 with
      | none => simp [transformLoop, transformChain, hl, stubValue]
      | some cd =>
        simp only [transformLoop, transformChain, hl]
        rw [ih ⟨c, hc, hnone⟩]

theorem transformLoop_error_stub (chains : List (String × ChainData)) (k : ℕ)
    (xforms : List (Mat3 × Vec3)) (cs : List String) (e : ProcExit)
    (h : transformLoop chains k xforms cs = Except.error e) : e = stubValue := by
  induction cs with
  | nil => exact absurd h (by simp [transformLoop])
  | cons c0 cs ih =>
    cases hl : chains.lookup c0 with
    | none =>
      rw [transformLoop, transformChain, hl] at h
      obtain rfl := (Except.error.inj h).symm
      rfl
    | some cd =>
      rw [transformLoop, transformChain, hl] at h
      simp only at h
      cases htl : transformLoop chains k xforms cs with
      | error e2 =>
        rw [htl] at h
        obtain rfl := (Except.error.inj h).symm
        exact (ih htl).symm ▸ rfl
      | ok rest => rw [htl] at h; exact absurd h (by simp)

theorem generateAsmb_stub (chains : List (String × ChainData)) (meta : Meta)
    (idxs : List ℕ)
    (hxf : ∀ k ∈ idxs, (meta.asmb_xform k).isSome)
    (hfail : ∃ k ∈ idxs, ∃ c ∈ chainsKOf meta k, chains.lookup c = none) :
    generateAsmb chains meta idxs = Except.error stubValue := by
  induction idxs with
  | nil => simp at hfail
  | cons k0 ks ih =>
    obtain ⟨xf0, hxf0⟩ := Option.isSome_iff_exists.mp (hxf k0 (by simp))
    obtain ⟨k, hk, c, hc, hnone⟩ := hfail
    rcases List.mem_cons.mp hk with rfl | hk
    · simp only [generateAsmb, hxf0]
      rw [transformLoop_stub chains k xf0 _ ⟨c, hc, hnone⟩]
    · cases htl : transformLoop chains k0 xf0 (chainsKOf meta k0) with
      | error e =>
        have he := transformLoop_error_stub chains k0 xf0 _ e htl
        subst he
        simp only [generateAsmb, hxf0, htl]
      | ok es =>
        simp only [generateAsmb, hxf0, htl]
        rw [ih (fun j hj => hxf j (List.mem_cons_of_mem _ hj))
          ⟨k, hk, c, hc, hnone⟩]

/-- C9: when a key lookup into the loaded chains dictionary fails while
applying an assembly transform (a `KeyError`, reachable because the
dictionary is keyed by single characters of `asmb_chains[i]` while
`chains_k` holds comma-separated fields), `process` does not raise: it
returns the malformed stub dictionary `{'seq': np.zeros(5)}` — neither a
dataset record nor a typed failure — abandoning all remaining clusters and
chains. -/
theorem keyerror_returns_stub (base : String) (fs : FS) (homoCut : ℚ)
    (pick : List String → String) (cid : String) (hsh : ℕ)
    (pdb_id ch_id : String) (meta : Meta)
    (chains : List (String × ChainData))
    (hsplit : pySplitOn cid '_' = [pdb_id, ch_id])
    (hmeta : fs.meta (pdbPathOf base pdb_id) = some meta)
    (hcand : (candidatesOf meta ch_id).isEmpty = false)
    (hchains : buildChainsDict fs (pdbPathOf base pdb_id) meta
      (asmbIdxs meta (pick (candidatesOf meta ch_id))) = Except.ok chains)
    (hxf : ∀ k ∈ asmbIdxs meta (pick (candidatesOf meta ch_id)),
      (meta.asmb_xform k).isSome)
    (hfail : ∃ k ∈ asmbIdxs meta (pick (candidatesOf meta ch_id)),
      ∃ c ∈ chainsKOf meta k, chains.lookup c = none) :
    processEntry base fs homoCut pick (cid, hsh) =
      Except.error (ProcExit.stub (List.replicate 5 0)) ∧
    ∀ rest acc,
      processEntries base fs homoCut pick ((cid, hsh) :: rest) acc =
        Except.error (ProcExit.stub (List.replicate 5 0)) := by
  have hrec : assembleRecord fs (pdbPathOf base pdb_id) meta ch_id cid
      (pick (candidatesOf meta ch_id)) homoCut = Except.error stubValue := by
    have hgen := generateAsmb_stub chains meta _ hxf hfail
    simp only [assembleRecord, hchains, hgen]
  have h1 : processEntry base fs homoCut pick (cid, hsh) =
      Except.error stubValue := by
    simp [processEntry, hsplit, hmeta, hcand, hrec]
  exact ⟨h1, fun rest acc => by simp [processEntries, h1, stubValue]⟩

/-- Metadata exhibiting the reachable `KeyError`: the structure has a
single two-character chain ID `AB`, so the chains dictionary (built from
the characters of `asmb_chains[0]`) is empty while `chains_k` contains
`AB`. -/
def metaW9 : Meta :=
  { asmb_ids := ["1"], asmb_chains := ["AB"], chains := ["AB"],
    asmb_xform := fun k => if k = 0 then some [] else none, tm := [] }

/-- A raw-file layout whose every metadata file is `metaW9`, used by the C9
witness. -/
def fsW9 : FS := ⟨fun _ => some metaW9, fun _ _ => none⟩

/-- Witness for `keyerror_returns_stub` on the chain `1ab_AB` under
`fsW9`: the stub abandons the remaining entry. -/
theorem keyerror_returns_stub_witness :
    processEntry "pdb" fsW9 0 (fun _ => "1") ("1ab_AB", 0) =
      Except.error (ProcExit.stub (List.replicate 5 0)) ∧
    processEntries "pdb" fsW9 0 (fun _ => "1")
        [("1ab_AB", 0), ("x_y", 1)] [] =
      Except.error (ProcExit.stub (List.replicate 5 0)) := by
  have h := keyerror_returns_stub "pdb" fsW9 0 (fun _ => "1") "1ab_AB" 0
    "1ab" "AB" metaW9 [] rfl rfl (by decide) rfl
    (by decide)
    ⟨0, by decide, "AB", by decide, rfl⟩
  exact ⟨h.1, h.2 [("x_y", 1)] []⟩

/-- The sequence-identity score of chain `c` against the reference chain,
read from the reference chain's `tm` row: the first component paired with
`c` in `zip(seqid, ch_ids)` (protein_mpnn_dataset.py lines 276-281). -/
def seqScore (seqid : List ℚ) (ch_ids : List String) (c : String) :
    Option ℚ :=
  ((seqid.zip ch_ids).find? (fun p => p.2 == c)).map (fun p => p.1)

theorem mem_homoSet_iff (seqid : List ℚ) (ch_ids : List String) (cut : ℚ)
    (c : String) (s : ℚ) (hnd : ch_ids.Nodup)
    (hlen : ch_ids.length ≤ seqid.length)
    (hfind : seqScore seqid ch_ids c = some s) :
    c ∈ homoSet seqid ch_ids cut ↔ cut < s := by
  obtain ⟨p, hp, hps⟩ : ∃ p, (seqid.zip ch_ids).find? (fun q => q.2 == c) =
      some p ∧ p.1 = s := by
    cases hf : (seqid.zip ch_ids).find? (fun q => q.2 == c) with
    | none => rw [seqScore, hf] at hfind; exact absurd hfind (by simp)
    | some p =>
      rw [seqScore, hf] at hfind
      exact ⟨p, rfl, by simpa using hfind⟩
  have hpc : p.2 = c := by
    have := List.find?_some hp
    simpa using this
  have hpm : p ∈ seqid.zip ch_ids := List.mem_of_find?_eq_some hp
  have hndz : ((seqid.zip ch_ids).map Prod.snd).Nodup := by
    rw [List.map_snd_zip seqid ch_ids hlen]
    exact hnd
  constructor
  · intro hc
    simp only [homoSet, List.mem_map, List.mem_filter,
      decide_eq_true_eq] at hc
    obtain ⟨q, ⟨hqm, hql⟩, hqc⟩ := hc
    have hq : q = p :=
      List.inj_on_of_nodup_map hndz hqm hpm (by rw [hqc, hpc])
    rw [← hps, ← hq]
    exact hql
  · intro hs
    simp only [homoSet, List.mem_map, List.mem_filter, decide_eq_true_eq]
    exact ⟨p, ⟨hpm, by rw [hps]; exact hs⟩, hpc⟩

theorem stackAux_masked (chains : List (String × ChainData))
    (homo : List String) (entries : List AsmbEntry) (counter : ℕ)
    (st st' : String × List (List Vec3) × List ℕ × List ℕ)
    (h : stackAux chains homo entries counter st = Except.ok st') (c : ℕ) :
    c ∈ st'.2.2.2 ↔ c ∈ st.2.2.2 ∨
      ∃ j key v, entries.get? j = some (key, v) ∧ c = counter + j ∧
        key.1 ∈ homo := by
  induction entries generalizing counter st with
  | nil =>
    rw [stackAux] at h
    obtain rfl := Except.ok.inj h
    simp
  | cons e rest ih =>
    obtain ⟨key, v⟩ := e
    cases hl : chains.lookup key.1 with
    | none =>
      simp only [stackAux, hl] at h
      exact absurd h (by simp)
    | some cd =>
      simp only [stackAux, hl] at h
      rw [ih (counter + 1) _ h]
      constructor
      · rintro (hm | ⟨j, key', v', hj, hcj, hh⟩)
        · rcases List.mem_append.mp hm with hm | hm
          · exact Or.inl hm
          · by_cases hk : key.1 ∈ homo
            · rw [if_pos hk] at hm
              obtain rfl := List.mem_singleton.mp hm
              exact Or.inr ⟨0, key, v, rfl, by omega, hk⟩
            · rw [if_neg hk] at hm
              exact absurd hm (List.not_mem_nil c)
        · exact Or.inr ⟨j + 1, key', v', by simpa using hj, by omega, hh⟩
      · rintro (hm | ⟨j, key', v', hj, hcj, hh⟩)
        · exact Or.inl (List.mem_append.mpr (Or.inl hm))
        · cases j with
          | zero =>
            simp only [List.get?] at hj
            obtain ⟨rfl, rfl⟩ : key = key' ∧ v = v' := by
              have := Option.some.inj hj
              exact ⟨congrArg Prod.fst this, congrArg Prod.snd this⟩
            refine Or.inl (List.mem_append.mpr (Or.inr ?_))
            rw [if_pos hh]
            simp [hcj]
          | succ j =>
            exact Or.inr ⟨j, key', v', by simpa using hj, by omega, hh⟩

theorem stackAssembly_masked (chains : List (String × ChainData))
    (homo : List String) (entries : List AsmbEntry)
    (st' : String × List (List Vec3) × List ℕ × List ℕ)
    (h : stackAssembly chains homo entries = Except.ok st') (c : ℕ) :
    c ∈ st'.2.2.2 ↔
      ∃ key v, entries.get? c = some (key, v) ∧ key.1 ∈ homo := by
  rw [stackAux_masked chains homo entries 0 ("", [], [], []) st' h c]
  simp only [List.not_mem_nil, false_or]
  constructor
  · rintro ⟨j, key, v, hj, hcj, hh⟩
    obtain rfl : c = j := by omega
    exact ⟨key, v, hj, hh⟩
  · rintro ⟨key, v, hj, hh⟩
    exact ⟨c, key, v, hj, by omega, hh⟩

/-- C7: in an assembled multi-chain record produced by `process`, a
constituent chain's segment counter is in the record's `masked` set if and
only if that chain's sequence-identity score to the reference chain
strictly exceeds the homo threshold. The hypotheses name the intermediate
values `process` computes (the chains dictionary, the assembly entries, the
reference chain's score row) and assume the structure's chain IDs are
distinct with a full score row, which makes "the chain's score"
well-defined. -/
theorem assembled_masked_iff (fs : FS) (pdbPath : String) (meta : Meta)
    (ch_id cid picked : String) (homoCut : ℚ)
    (chains : List (String × ChainData)) (entries : List AsmbEntry)
    (seqid : List ℚ) (r : Record)
    (hchains : buildChainsDict fs pdbPath meta (asmbIdxs meta picked) =
      Except.ok chains)
    (hentries : generateAsmb chains meta (asmbIdxs meta picked) =
      Except.ok entries)
    (hseqid : seqidRow meta ch_id = some seqid)
    (hrec : assembleRecord fs pdbPath meta ch_id cid picked homoCut =
      Except.ok r)
    (hnd : meta.chains.Nodup)
    (hlen : meta.chains.length ≤ seqid.length)
    (counter : ℕ) (key : String × ℕ × ℕ) (v : List (List Vec3))
    (hcount : entries.get? counter = some (key, v))
    (s : ℚ) (hscore : seqScore seqid meta.chains key.1 = some s) :
    counter ∈ r.masked ↔ homoCut < s := by
  simp only [assembleRecord, hchains, hentries, hseqid] at hrec
  cases hst : stackAssembly chains (homoSet seqid meta.chains homoCut)
      entries with
  | error e => rw [hst] at hrec; exact absurd hrec (by simp)
  | ok st =>
    rw [hst] at hrec
    obtain rfl := Except.ok.inj hrec
    show counter ∈ st.2.2.2 ↔ homoCut < s
    rw [stackAssembly_masked chains _ entries st hst counter]
    constructor
    · rintro ⟨key', v', hj, hh⟩
      obtain ⟨rfl, rfl⟩ : key = key' ∧ v = v' := by
        rw [hcount] at hj
        have := Option.some.inj hj
        exact ⟨congrArg Prod.fst this, congrArg Prod.snd this⟩
      exact (mem_homoSet_iff seqid meta.chains homoCut key.1 s hnd hlen
        hscore).mp hh
    · intro hs
      exact ⟨key, v, hcount,
        (mem_homoSet_iff seqid meta.chains homoCut key.1 s hnd hlen
          hscore).mpr hs⟩

/-- Chain `A` of the C7 witness structure. -/
def cdA7 : ChainData := ⟨"G", []⟩

/-- Chain `B` of the C7 witness structure. -/
def cdB7 : ChainData := ⟨"H", []⟩

/-- Metadata of the C7 witness structure: one assembly containing chains
`A` and `B`, an identity transform, and a `tm` table giving both chains a
sequence-identity score of `1` against either reference. -/
def metaW7 : Meta :=
  { asmb_ids := ["1"], asmb_chains := ["A,B"], chains := ["A", "B"],
    asmb_xform := fun k =>
      if k = 0 then some [(((1, 0, 0), (0, 1, 0), (0, 0, 1)), (0, 0, 0))]
      else none,
    tm := [[(0, 1, 0), (0, 1, 0)], [(0, 1, 0), (0, 1, 0)]] }

/-- The raw-file layout of the C7 witness. -/
def fsW7 : FS :=
  ⟨fun _ => some metaW7,
   fun _ c => if c = "A" then some cdA7
     else if c = "B" then some cdB7 else none⟩

/-- The chains dictionary `process` builds for the C7 witness. -/
def chainsW7 : List (String × ChainData) := [("A", cdA7), ("B", cdB7)]

/-- The assembly entries `process` generates for the C7 witness (both
chains have empty coordinate lists, so the transform is trivial). -/
def entriesW7 : List AsmbEntry := [(("A", 0, 0), []), (("B", 0, 0), [])]

/-- The assembled record of the C7 witness: both segment counters are
masked because both scores exceed the threshold `0`. -/
def recW7 : Record := ⟨"GH", [], [], [0, 1], "1ab_A"⟩

/-- Witness for `assembled_masked_iff`: in the concrete assembly `recW7`,
segment counter `1` (chain `B`, score `1`) is masked under threshold `0`. -/
theorem assembled_masked_iff_witness :
    (1 ∈ recW7.masked ↔ (0 : ℚ) < 1) :=
  assembled_masked_iff fsW7 (pdbPathOf "pdb" "1ab") metaW7 "A" "1ab_A" "1" 0
    chainsW7 entriesW7 [1, 1] recW7 rfl rfl rfl rfl (by decide) (by decide)
    1 ("B", 0, 0) [] rfl 1 rfl

end ProteinMPNN
